import Mathlib

/-!
Verification development for the `Anders-wasm` browser application.

The development shallowly embeds the three TypeScript sources:
* `src/routes/multilingual-chat.ts` (orchestrator: WASM validator, worker RPC client),
* `src/routes/multilingual-chat.worker.ts` (worker: resilient fetch, pipeline, message handler),
* the preprocessing page (WASM validator `validatePreprocessModule`).

JavaScript values relevant to validation are modelled by `JsVal`, JS objects by
association lists of named `JsVal`s, the browser `fetch` by an explicit environment,
and the asynchronous worker RPC by pure step functions over explicit state.
-/

namespace AndersWasm

/-! ### JS value and object model -/

/-- A JavaScript value, abstracted to exactly the distinctions the validators make:
a `WebAssembly.Memory` instance, a function, some other truthy value, or a falsy
value (`null` / `undefined` / `0` / the empty string / ...). -/
inductive JsVal
  | mem
  | fn
  | truthyOther
  | falsy
  deriving DecidableEq, Repr

/-- A JavaScript object as seen through `Object.keys` / `Object.getOwnPropertyDescriptor`:
an association list from property names to values. -/
abbrev Obj := List (String × JsVal)

/-- `getProperty(obj, key)` from the sources: the descriptor's value if the key is
present, `undefined` (here `none`) otherwise. -/
def getProp (o : Obj) (k : String) : Option JsVal :=
  (o.find? (fun p => p.1 == k)).map (fun p => p.2)

/-- `Object.keys(obj)`. -/
def objKeys (o : Obj) : List String := o.map (fun p => p.1)

/-- The JS `key in obj` membership test (presence of the property, whatever its value). -/
def hasKey (o : Obj) (k : String) : Bool :=
  (o.find? (fun p => p.1 == k)).isSome

/-- The test `memoryValue && memoryValue instanceof WebAssembly.Memory` applied to a
property lookup result: truthy and a `WebAssembly.Memory` instance. -/
def isMemVal : Option JsVal → Bool
  | some JsVal.mem => true
  | _ => false

/-- The test `funcValue && typeof funcValue === 'function'` applied to a property
lookup result: truthy and a function. -/
def isFnVal : Option JsVal → Bool
  | some JsVal.fn => true
  | _ => false

/-! ### Module validators -/

/-- Result of running one of the validator functions: `null` (rejected without a
message), a thrown "missing required exports" error carrying the missing-entry list
and the available keys, a thrown plain-message error, or a returned module handle. -/
inductive VResult
  | nullRes
  | errMissing (missing : List String) (available : List String)
  | errMsg (msg : String)
  | handle
  deriving DecidableEq, Repr

/-- Modelled from the spec: `validateWasmModule` lives in `src/wasm/loader`, which is
not among the repository sources here.  Per the spec it is the generic basic-shape
check run before the per-contract validation; every candidate representable in this
embedding is already a module export object, so it accepts. -/
def validateWasmModule (_ : Obj) : Bool := true

/-- The required operation names of the multilingual-chat capability contract
(`requiredFunctions` in `validateMultilingualChatModule`). -/
def chatRequiredFunctions : List String :=
  ["detect_language", "get_text_stats", "normalize_text"]

/-- The `missingExports` list accumulated by `validateMultilingualChatModule`:
the memory check runs on the init-result object, the function checks run on the
cached `wasmModuleExports` record (or a dedicated entry when that record is null). -/
def chatMissingExports (exports : Obj) (wme : Option Obj) : List String :=
  (if isMemVal (getProp exports "memory") then [] else ["memory (WebAssembly.Memory)"]) ++
    (match wme with
     | none => ["module exports (wasmModuleExports is null)"]
     | some w =>
       chatRequiredFunctions.filterMap fun f =>
         if isFnVal (getProp w f) then none else some (f ++ " (function)"))

/-- `validateMultilingualChatModule` from `src/routes/multilingual-chat.ts`:
runs the generic check, accumulates `missingExports`, throws the structured error
when that list is nonempty, then re-checks memory and the cached exports record
before building the handle. -/
def validateMultilingualChatModule (exports : Obj) (wme : Option Obj) : VResult :=
  if validateWasmModule exports = false then VResult.nullRes
  else
    let missing := chatMissingExports exports wme
    if missing ≠ [] then VResult.errMissing missing (objKeys exports)
    else
      match getProp exports "memory", wme with
      | some JsVal.mem, some _ => VResult.handle
      | some JsVal.mem, none => VResult.nullRes
      | _, _ => VResult.nullRes

/-- The required operation names of the preprocessing capability contract
(the four `in exports` checks of `validatePreprocessModule`). -/
def preprocessFunctionNames : List String :=
  ["preprocess_image", "preprocess_text", "normalize_text", "get_preprocess_stats"]

/-- The `missingExports` list accumulated by `validatePreprocessModule`: the memory
check plus a `key in exports` membership check per required operation. -/
def preprocessMissingExports (exports : Obj) : List String :=
  (if isMemVal (getProp exports "memory") then [] else ["memory (WebAssembly.Memory)"]) ++
    (if hasKey exports "preprocess_image" then [] else ["preprocess_image"]) ++
      (if hasKey exports "preprocess_text" then [] else ["preprocess_text"]) ++
        (if hasKey exports "normalize_text" then [] else ["normalize_text"]) ++
          (if hasKey exports "get_preprocess_stats" then [] else ["get_preprocess_stats"])

/-- `validatePreprocessModule` from the preprocessing page: generic check, structured
missing-exports error, a plain-message throw when the memory re-check fails, then the
final guard over the init result's memory and the cached `wasmModuleExports` record
(returning `null` when that guard fails). -/
def validatePreprocessModule (exports : Obj) (wme : Option Obj) : VResult :=
  if validateWasmModule exports = false then VResult.nullRes
  else
    let missing := preprocessMissingExports exports
    if missing ≠ [] then VResult.errMissing missing (objKeys exports)
    else if isMemVal (getProp exports "memory") = false then
      VResult.errMsg "WASM module memory is not WebAssembly.Memory"
    else
      match wme with
      | some w =>
        if isMemVal (getProp exports "memory")
            && preprocessFunctionNames.all (fun f => isFnVal (getProp w f)) then
          VResult.handle
        else VResult.nullRes
      | none => VResult.nullRes

/-! ### String containment (the JS `String.prototype.includes`) -/

/-- `leadsWith pat l` holds when `pat` is an initial segment of `l`. -/
def leadsWith : List Char → List Char → Bool
  | [], _ => true
  | _ :: _, [] => false
  | a :: as, b :: bs => a == b && leadsWith as bs

/-- `occursIn pat l` holds when `pat` occurs contiguously somewhere in `l`. -/
def occursIn (pat : List Char) : List Char → Bool
  | [] => leadsWith pat []
  | c :: rest => leadsWith pat (c :: rest) || occursIn pat rest

/-- The JS `s.includes(pat)`. -/
def strContains (s pat : String) : Bool :=
  occursIn pat.toList s.toList

/-! ### Resilient fetch (`multilingual-chat.worker.ts`) -/

/-- The outcome of one browser `fetch`: a response with an HTTP status and a body,
or a thrown transport fault. -/
inductive FResult
  | resp (status : Nat) (body : String)
  | fault
  deriving DecidableEq, Repr

/-- The browser environment the worker's fetch layer runs in: the global `fetch`
(a deterministic outcome per request URL) and the `encodeURIComponent` builtin. -/
structure FetchEnv where
  fetch : String → FResult
  encode : String → String

/-- The JS `Response.ok` property: status in the inclusive range 200–299. -/
def respOk (s : Nat) : Bool :=
  decide (200 ≤ s) && decide (s < 300)

/-- The ordered CORS proxy service prefix list from the worker source. -/
def CORS_PROXY_SERVICES : List String :=
  ["https://api.allorigins.win/raw?url=",
   "https://corsproxy.io/?",
   "https://api.codetabs.com/v1/proxy?quest="]

/-- `needsProxy` from the worker source: the URL mentions `huggingface.co` and none
of the known mirror/proxy origins. -/
def needsProxy (url : String) : Bool :=
  strContains url "huggingface.co"
    && !strContains url "cdn.jsdelivr.net"
    && !strContains url "api.allorigins.win"
    && !strContains url "corsproxy.io"
    && !strContains url "api.codetabs.com"

/-- The proxy loop of `customFetch`, generalized over the candidate list.  Returns
the accepted response (if any) together with the ordered trace of proxy URLs
actually passed to `fetch`.  Statuses 400–599 are skipped via the explicit
`continue`, a non-`ok` response falls off the loop body, and a thrown fault is
swallowed by the `catch`. -/
def tryProxyList (env : FetchEnv) (url : String) : List String → Option FResult × List String
  | [] => (none, [])
  | base :: rest =>
    let pu := base ++ env.encode url
    match env.fetch pu with
    | FResult.fault =>
      let r := tryProxyList env url rest
      (r.1, pu :: r.2)
    | FResult.resp s b =>
      if 400 ≤ s ∧ s < 600 then
        let r := tryProxyList env url rest
        (r.1, pu :: r.2)
      else if respOk s then (some (FResult.resp s b), [pu])
      else
        let r := tryProxyList env url rest
        (r.1, pu :: r.2)

/-- `customFetch` from the worker source, instrumented with the ordered trace of all
URLs passed to the underlying `fetch`: direct fetch when no proxying is needed,
otherwise the proxy loop followed by a final direct attempt. -/
def customFetch (env : FetchEnv) (url : String) : FResult × List String :=
  if needsProxy url then
    match tryProxyList env url CORS_PROXY_SERVICES with
    | (some r, t) => (r, t)
    | (none, t) => (env.fetch url, t ++ [url])
  else (env.fetch url, [url])

/-- Modelled from the spec: the fallback algorithm of §4.2 — iterate the candidate
list in fixed order, skip any candidate that faults or whose response status is not
a success, and accept the first success-status response. -/
def proxyFirstOk (env : FetchEnv) (url : String) : List String → Option FResult
  | [] => none
  | base :: rest =>
    match env.fetch (base ++ env.encode url) with
    | FResult.fault => proxyFirstOk env url rest
    | FResult.resp s b =>
      if respOk s then some (FResult.resp s b) else proxyFirstOk env url rest

/-! ### Worker RPC messages -/

/-- The request messages sent to the worker (`LoadMessage` / `GenerateMessage`).
`temperature: 0.7` is recorded in tenths to stay within exact arithmetic. -/
structure ChatOptions where
  max_new_tokens : Nat
  temperatureTenths : Nat
  do_sample : Bool
  deriving DecidableEq, Repr

/-- A worker request (`WorkerMessage` in the sources). -/
inductive WMessage
  | load (id : String)
  | generate (id : String) (message : String) (language : String) (options : ChatOptions)
  deriving DecidableEq, Repr

/-- The id a request carries. -/
def wmsgId : WMessage → String
  | WMessage.load id => id
  | WMessage.generate id _ _ _ => id

/-- A worker response (`WorkerResponse` in the sources). -/
inductive WResp
  | loaded (id : String)
  | result (id : String) (response : String)
  | error (id : String) (error : String)
  deriving DecidableEq, Repr

/-- The id a response echoes. -/
def wrespId : WResp → String
  | WResp.loaded id => id
  | WResp.result id _ => id
  | WResp.error id _ => id

/-! ### Main-thread correlation handlers -/

/-- How a pending generate call settles: resolved with a response string, or
rejected with a worker-reported error message. -/
inductive GenOutcome
  | ok (resp : String)
  | err (msg : String)
  deriving DecidableEq, Repr

/-- How a pending load call settles. -/
inductive LoadOutcome
  | ok
  | err (msg : String)
  deriving DecidableEq, Repr

/-- The per-call message handler registered by `generateChatResponse`: drop events
whose id differs from the captured call id; on a matching id remove the listener,
then resolve on `result` and reject on `error` (any other kind settles nothing).
Returns the settlement (if any) and whether the listener was removed. -/
def handleGenerateEvent (callId : String) (e : WResp) : Option GenOutcome × Bool :=
  if wrespId e ≠ callId then (none, false)
  else
    match e with
    | WResp.result _ r => (some (GenOutcome.ok r), true)
    | WResp.error _ m => (some (GenOutcome.err m), true)
    | WResp.loaded _ => (none, true)

/-- The per-call message handler registered by `loadChatModel`: drop mismatching
ids; on a matching id remove the listener, resolve on `loaded`, reject on `error`. -/
def handleLoadEvent (callId : String) (e : WResp) : Option LoadOutcome × Bool :=
  if wrespId e ≠ callId then (none, false)
  else
    match e with
    | WResp.loaded _ => (some LoadOutcome.ok, true)
    | WResp.error _ m => (some (LoadOutcome.err m), true)
    | WResp.result _ _ => (none, true)

/-- Deliver one worker response to every currently registered generate listener
(identified by its pending call id), in registration order.  Returns the listeners
still registered afterwards and the settlements the event produced. -/
def dispatchGenerate : List String → WResp → List String × List (String × GenOutcome)
  | [], _ => ([], [])
  | c :: rest, e =>
    let r := dispatchGenerate rest e
    let h := handleGenerateEvent c e
    ((if h.2 then r.1 else c :: r.1),
     match h.1 with
     | some x => (c, x) :: r.2
     | none => r.2)

/-- Deliver a sequence of worker responses, accumulating settlements. -/
def runResponses : List String → List WResp → List String × List (String × GenOutcome)
  | pending, [] => (pending, [])
  | pending, e :: es =>
    let d := dispatchGenerate pending e
    let r := runResponses d.1 es
    (r.1, d.2 ++ r.2)

/-! ### `generateChatResponse` send path and lazy singletons -/

/-- The generate request `generateChatResponse` posts for a message/language pair. -/
def mkGenerateMessage (id message language : String) : WMessage :=
  WMessage.generate id message language ⟨150, 7, true⟩

/-- The synchronous send path of `generateChatResponse`: with no worker it throws
`Chat worker not initialized` and posts nothing; with a worker it posts exactly the
generate request.  The second component is the list of posted messages. -/
def generateChatResponseStart (worker : Option Nat) (id message language : String) :
    Except String Unit × List WMessage :=
  match worker with
  | none => (Except.error "Chat worker not initialized", [])
  | some _ => (Except.ok (), [mkGenerateMessage id message language])

/-- One call of the worker-side `getPipeline` singleton: `mk` stands for the outcome
`pipeline('text-generation', MODEL_ID)` would create on this call.  Returns the new
cached state, the value handed to the caller, and whether the initializer ran. -/
def getPipelineStep {α : Type} (mk : α) : Option α → Option α × α × Bool
  | none => (some mk, mk, true)
  | some p => (some p, p, false)

/-- A sequence of `getPipeline` calls threaded through the cached state, recording
each call's returned value and whether it invoked the initializer. -/
def runPipelineCalls {α : Type} : Option α → List α → Option α × List (α × Bool)
  | s, [] => (s, [])
  | s, mk :: mks =>
    let r := getPipelineStep mk s
    let rest := runPipelineCalls r.1 mks
    (rest.1, (r.2.1, r.2.2) :: rest.2)

/-- One call of `loadChatModel`'s worker-creation guard: early-return when a worker
exists, otherwise create and cache one.  Returns the new state and whether a worker
was created. -/
def loadChatModelStep {β : Type} (newWorker : β) : Option β → Option β × Bool
  | some w => (some w, false)
  | none => (some newWorker, true)

/-! ### Worker-side generation (`multilingual-chat.worker.ts`) -/

/-- JS whitespace as used by `\s` and `trim` on the texts in scope (ASCII range). -/
def jsWs (c : Char) : Bool :=
  c == ' ' || c == '\t' || c == '\n' || c == '\r' || c == '\x0B' || c == '\x0C'

/-- The JS `s.replace(pat, '')` with a plain-string pattern: remove the leftmost
occurrence of `pat`, if any. -/
def replFirst (pat : List Char) : List Char → List Char
  | [] => []
  | c :: rest =>
    if leadsWith pat (c :: rest) then (c :: rest).drop pat.length
    else c :: replFirst pat rest

/-- Fuelled scanner for a global regex replace of a literal token by the empty
string; when `ws` is set the token is followed by `\s*`, so the maximal whitespace
run after each occurrence is removed too.  Matches are non-overlapping and scanning
resumes after each match, as JS global replace does.  One unit of fuel is spent per
retained character or match, so `s.length + 1` fuel always suffices. -/
def replAllTokF : Nat → List Char → Bool → List Char → List Char
  | 0, _, _, s => s
  | _ + 1, _, _, [] => []
  | fuel + 1, pat, ws, c :: rest =>
    if pat ≠ [] ∧ leadsWith pat (c :: rest) = true then
      let after := (c :: rest).drop pat.length
      replAllTokF fuel pat ws (if ws then after.dropWhile jsWs else after)
    else c :: replAllTokF fuel pat ws rest

/-- The JS `s.replace(/tok/g, '')` (and `s.replace(/tok\s*/g, '')` when `ws`). -/
def replAllTok (pat : List Char) (ws : Bool) (s : List Char) : List Char :=
  replAllTokF (s.length + 1) pat ws s

/-- The anchored case-insensitive strip `^\s*(user|assistant)[:\s]+` (or with `user`
alone when `withAssistant` is false): skip leading whitespace, match one role word
case-insensitively, then require and consume a nonempty run of colons/whitespace;
on any failure the input is returned unchanged. -/
def stripLeadRole (withAssistant : Bool) (s : List Char) : List Char :=
  let t := s.dropWhile jsWs
  let afterRole :=
    if (t.take 4).map Char.toLower = "user".toList then some (t.drop 4)
    else if withAssistant ∧ (t.take 9).map Char.toLower = "assistant".toList then
      some (t.drop 9)
    else none
  match afterRole with
  | none => s
  | some u =>
    if (u.takeWhile fun c => c == ':' || jsWs c) = [] then s
    else u.dropWhile fun c => c == ':' || jsWs c

/-- The part of `s` after the last occurrence of `pat` (the JS
`lastIndexOf`/`substring` pair), `none` when `pat` does not occur. -/
def afterLastOcc (pat : List Char) : List Char → Option (List Char)
  | [] => none
  | c :: rest =>
    match afterLastOcc pat rest with
    | some t => some t
    | none =>
      if leadsWith pat (c :: rest) then some ((c :: rest).drop pat.length)
      else none

/-- The JS `s.trim()` on the ASCII whitespace in scope. -/
def trimChars (s : List Char) : List Char :=
  ((s.dropWhile jsWs).reverse.dropWhile jsWs).reverse

/-- `extractAssistantResponse` from the worker source: strip the first occurrence of
the formatted prompt, the Qwen/Llama special tokens, a leading role marker; keep
only the text after the last `assistant` when that text is nonempty after trimming;
strip a leading `user` marker again; trim. -/
def extractAssistantResponse (generatedText formattedPrompt : String) : String :=
  let fp := formattedPrompt.toList
  let r1 :=
    if occursIn fp generatedText.toList then replFirst fp generatedText.toList
    else generatedText.toList
  let r2 := replAllTok "<|im_start|>assistant".toList true r1
  let r3 := replAllTok "<|im_end|>".toList false r2
  let r4 := replAllTok "<|im_start|>".toList false r3
  let r5 := replAllTok "<|begin_of_text|>".toList false r4
  let r6 := replAllTok "<|end_of_text|>".toList false r5
  let r7 := stripLeadRole true r6
  let r8 :=
    match afterLastOcc "assistant".toList r7 with
    | some t => if trimChars t ≠ [] then t else r7
    | none => r7
  let r9 := stripLeadRole false r8
  String.mk (trimChars r9)

/-- The language prompt table from `getLanguagePrompt`. -/
def languagePrompts : List (String × String) :=
  [("en", "You are a helpful assistant. Respond in English."),
   ("de", "Du bist ein hilfreicher Assistent. Antworte auf Deutsch."),
   ("fr", "Vous êtes un assistant utile. Répondez en français."),
   ("it", "Sei un assistente utile. Rispondi in italiano."),
   ("pt", "Você é um assistente útil. Responda em português."),
   ("hi", "आप एक सहायक सहायक हैं। हिंदी में उत्तर दें।"),
   ("es", "Eres un asistente útil. Responde en español."),
   ("th", "คุณเป็นผู้ช่วยที่เป็นประโยชน์ ตอบเป็นภาษาไทย")]

/-- The JS value `languagePrompts[language]` can evaluate to: one of the table's
own string entries, or — because bracket access on a plain object literal walks the
prototype chain — a truthy member inherited from `Object.prototype` (a built-in
function such as `toString`, or the `__proto__` object), identified here by its
property name. -/
inductive PromptVal
  | str (s : String)
  | inherited (name : String)
  deriving DecidableEq, Repr

/-- The property names a plain object literal inherits from `Object.prototype`;
reading any of them yields a truthy value (a built-in function, or the prototype
object itself for `__proto__`), never `undefined`. -/
def objectPrototypeMemberNames : List String :=
  ["constructor", "hasOwnProperty", "isPrototypeOf", "propertyIsEnumerable",
   "toLocaleString", "toString", "valueOf", "__proto__",
   "__defineGetter__", "__defineSetter__", "__lookupGetter__", "__lookupSetter__"]

/-- `getLanguagePrompt` from the worker source: `languagePrompts[language] ||
languagePrompts.en`.  An own table entry is returned if truthy; a property name
inherited from `Object.prototype` yields the truthy inherited member, which
short-circuits the `||` fallback; only an `undefined` lookup (any other name)
falls back to the English prompt. -/
def getLanguagePrompt (language : String) : PromptVal :=
  match (languagePrompts.find? (fun p => p.1 == language)).map (fun p => p.2) with
  | some p =>
    if p = "" then PromptVal.str "You are a helpful assistant. Respond in English."
    else PromptVal.str p
  | none =>
    if language ∈ objectPrototypeMemberNames then PromptVal.inherited language
    else PromptVal.str "You are a helpful assistant. Respond in English."

/-- String coercion of the prompt value as performed by the template literal of the
manual prompt layout: a string coerces to itself, an inherited built-in member to
its engine-defined source text (supplied by the environment as `fnStr`). -/
def promptCoerce (fnStr : String → String) : PromptVal → String
  | PromptVal.str s => s
  | PromptVal.inherited name => fnStr name

/-- The shapes the text-generation pipeline's output can take, as far as the
worker's extraction code distinguishes them: an item with a string `generated_text`
field, or one without. -/
inductive PipeItem
  | withText (t : String)
  | noText
  deriving DecidableEq, Repr

/-- The pipeline output: an array of items, a bare object, or anything else. -/
inductive PipeResult
  | arr (items : List PipeItem)
  | obj (item : PipeItem)
  | other
  deriving DecidableEq, Repr

/-- The `generatedText` extraction of the worker's generate branch: first item of a
nonempty array when it carries a string `generated_text`, the field of a bare
object, and the empty string in every other case. -/
def extractGeneratedText : PipeResult → String
  | PipeResult.arr (PipeItem.withText t :: _) => t
  | PipeResult.arr _ => ""
  | PipeResult.obj (PipeItem.withText t) => t
  | PipeResult.obj PipeItem.noText => ""
  | PipeResult.other => ""

/-- Whether `tokenizer.apply_chat_template` returned a string. -/
inductive TemplateOut
  | str (s : String)
  | nonStr
  deriving DecidableEq, Repr

/-- The worker's effectful collaborators, fixed for the lifetime of the worker:
the shared pipeline-load outcome (the cached `pipelinePromise`), the optional chat
template (absent when the tokenizer lacks `apply_chat_template`; it receives the
raw prompt value as the system content), the generator call itself, which may
throw, and the engine-defined string coercion of an inherited built-in member. -/
structure WorkerEnv where
  pipelineLoad : Except String Unit
  applyChatTemplate : Option (PromptVal → String → TemplateOut)
  generate : String → ChatOptions → Except String PipeResult
  fnToString : String → String

/-- The formatted prompt of the generate branch: the chat template applied to the
system/user pair when available (throwing when it returns a non-string), the manual
`languagePrompt\n\nUser: ...\nAssistant:` layout (which string-coerces the prompt
value) otherwise. -/
def formattedPromptOf (env : WorkerEnv) (message language : String) : Except String String :=
  match env.applyChatTemplate with
  | some f =>
    match f (getLanguagePrompt language) message with
    | TemplateOut.str s => Except.ok s
    | TemplateOut.nonStr => Except.error "Chat template did not return a string"
  | none =>
    Except.ok (promptCoerce env.fnToString (getLanguagePrompt language) ++
      "\n\nUser: " ++ message ++ "\nAssistant:")

/-- The whole generate branch of the worker's `onmessage`, up to the response
payload: await the pipeline, format the prompt, run the generator, extract the
generated text (throwing when it is empty), strip the prompt, and fall back to
`I understand.` for an empty stripped response. -/
def handleGenerate (env : WorkerEnv) (message language : String) (options : ChatOptions) :
    Except String String :=
  match env.pipelineLoad with
  | Except.error e => Except.error e
  | Except.ok _ =>
    match formattedPromptOf env message language with
    | Except.error e => Except.error e
    | Except.ok fp =>
      match env.generate fp options with
      | Except.error e => Except.error e
      | Except.ok result =>
        let generatedText := extractGeneratedText result
        if generatedText = "" then
          Except.error "Failed to extract generated text from result"
        else
          let response := extractAssistantResponse generatedText fp
          Except.ok (if response = "" then "I understand." else response)

/-- The worker's `onmessage` handler: the list of responses posted for one incoming
request.  Successes post `loaded`/`result`; the surrounding `catch` posts a single
`error` response echoing the request id. -/
def onmessage (env : WorkerEnv) : WMessage → List WResp
  | WMessage.load id =>
    match env.pipelineLoad with
    | Except.ok _ => [WResp.loaded id]
    | Except.error e => [WResp.error id e]
  | WMessage.generate id message language options =>
    match handleGenerate env message language options with
    | Except.ok s => [WResp.result id s]
    | Except.error e => [WResp.error id e]

/-! ## Theorems -/

/-- Helper: a generate response delivered to listeners none of which carries its id
leaves every listener registered and settles nothing. -/
lemma dispatchGenerate_not_mem (pending : List String) (e : WResp)
    (h : wrespId e ∉ pending) : dispatchGenerate pending e = (pending, []) := by
  induction pending with
  | nil => rfl
  | cons c rest ih =>
    have hc : wrespId e ≠ c := fun hh => h (hh ▸ List.mem_cons_self c rest)
    have hr : wrespId e ∉ rest := fun hh => h (List.mem_cons_of_mem _ hh)
    simp [dispatchGenerate, ih hr, handleGenerateEvent, hc]

/-- Helper: a `result` response whose id is pending settles exactly that call with
its payload and deregisters exactly that listener. -/
lemma dispatchGenerate_result (pending : List String) (hnd : pending.Nodup)
    (i r : String) (hi : i ∈ pending) :
    dispatchGenerate pending (WResp.result i r) =
      (pending.erase i, [(i, GenOutcome.ok r)]) := by
  induction pending with
  | nil => cases hi
  | cons c rest ih =>
    rcases List.mem_cons.mp hi with rfl | hmem
    · have hni : i ∉ rest := (List.nodup_cons.mp hnd).1
      have hd := dispatchGenerate_not_mem rest (WResp.result i r) (by simpa [wrespId] using hni)
      simp [dispatchGenerate, hd, handleGenerateEvent, wrespId]
    · have hne : c ≠ i := by
        rintro rfl
        exact (List.nodup_cons.mp hnd).1 hmem
      have ih' := ih (List.nodup_cons.mp hnd).2 hmem
      simp [dispatchGenerate, ih', handleGenerateEvent, wrespId, Ne.symm hne]
      exact (List.erase_cons_tail (by simp [hne])).symm

/-- Helper: an `error` response whose id is pending rejects exactly that call with
the reported message and deregisters exactly that listener. -/
lemma dispatchGenerate_error (pending : List String) (hnd : pending.Nodup)
    (i m : String) (hi : i ∈ pending) :
    dispatchGenerate pending (WResp.error i m) =
      (pending.erase i, [(i, GenOutcome.err m)]) := by
  induction pending with
  | nil => cases hi
  | cons c rest ih =>
    rcases List.mem_cons.mp hi with rfl | hmem
    · have hni : i ∉ rest := (List.nodup_cons.mp hnd).1
      have hd := dispatchGenerate_not_mem rest (WResp.error i m) (by simpa [wrespId] using hni)
      simp [dispatchGenerate, hd, handleGenerateEvent, wrespId]
    · have hne : c ≠ i := by
        rintro rfl
        exact (List.nodup_cons.mp hnd).1 hmem
      have ih' := ih (List.nodup_cons.mp hnd).2 hmem
      simp [dispatchGenerate, ih', handleGenerateEvent, wrespId, Ne.symm hne]
      exact (List.erase_cons_tail (by simp [hne])).symm

/-- C1: For every module candidate validated against a Capability Contract, if any
required entry (the memory object or any named operation) is missing, validation
fails with an error that lists every missing entry by name together with the full
list of entries actually present, and a handle is never returned on a partial
match — for both `validateMultilingualChatModule` and `validatePreprocessModule`. -/
theorem c1_contract_validation_is_all_or_nothing :
    ∀ (exports : Obj) (wme : Option Obj),
      (chatMissingExports exports wme ≠ [] →
        validateMultilingualChatModule exports wme =
          VResult.errMissing (chatMissingExports exports wme) (objKeys exports)) ∧
      (validateMultilingualChatModule exports wme = VResult.handle →
        chatMissingExports exports wme = []) ∧
      (isMemVal (getProp exports "memory") = false →
        "memory (WebAssembly.Memory)" ∈ chatMissingExports exports wme) ∧
      (∀ w f, wme = some w → f ∈ chatRequiredFunctions → isFnVal (getProp w f) = false →
        (f ++ " (function)") ∈ chatMissingExports exports wme) ∧
      (wme = none →
        "module exports (wasmModuleExports is null)" ∈ chatMissingExports exports wme) ∧
      (preprocessMissingExports exports ≠ [] →
        validatePreprocessModule exports wme =
          VResult.errMissing (preprocessMissingExports exports) (objKeys exports)) ∧
      (validatePreprocessModule exports wme = VResult.handle →
        preprocessMissingExports exports = []) ∧
      (isMemVal (getProp exports "memory") = false →
        "memory (WebAssembly.Memory)" ∈ preprocessMissingExports exports) ∧
      (∀ f, f ∈ preprocessFunctionNames → hasKey exports f = false →
        f ∈ preprocessMissingExports exports) := by
  intro exports wme
  refine ⟨?_, ?_, ?_, ?_, ?_, ?_, ?_, ?_, ?_⟩
  · intro h
    simp [validateMultilingualChatModule, validateWasmModule, h]
  · intro h
    by_cases hm : chatMissingExports exports wme = []
    · exact hm
    · simp [validateMultilingualChatModule, validateWasmModule, hm] at h
  · intro h
    simp [chatMissingExports, h]
  · intro w f hw hf hfn
    subst hw
    simp only [chatMissingExports, List.mem_append]
    exact Or.inr (List.mem_filterMap.mpr ⟨f, hf, by simp [hfn]⟩)
  · intro h
    subst h
    simp [chatMissingExports]
  · intro h
    simp [validatePreprocessModule, validateWasmModule, h]
  · intro h
    by_cases hm : preprocessMissingExports exports = []
    · exact hm
    · simp [validatePreprocessModule, validateWasmModule, hm] at h
  · intro h
    simp [preprocessMissingExports, h]
  · intro f hf h
    simp [preprocessFunctionNames] at hf
    rcases hf with rfl | rfl | rfl | rfl <;>
      (simp only [preprocessMissingExports]; split_ifs <;> simp_all)

/-- Witness for C1 at a concrete partial candidate: one extra key, no memory, no
cached exports record — validation throws the structured error listing both missing
entries and the available key. -/
theorem c1_witness :
    validateMultilingualChatModule [("foo", JsVal.fn)] none =
      VResult.errMissing
        ["memory (WebAssembly.Memory)", "module exports (wasmModuleExports is null)"]
        ["foo"] :=
  ((c1_contract_validation_is_all_or_nothing [("foo", JsVal.fn)] none).1
    (by decide)).trans (by decide)

/-- C2: with distinct pending ids, each worker response settles exactly the caller
whose request carried the matching id (result resolves, error rejects, and only
that entry is removed); a response matching no pending id is discarded without
altering any pending call; and for any arrival permutation of per-id results, every
caller is resolved with its own payload. -/
theorem c2_id_correlation_under_any_order :
    (∀ (pending : List String) (e : WResp), wrespId e ∉ pending →
      dispatchGenerate pending e = (pending, [])) ∧
    (∀ (pending : List String), pending.Nodup → ∀ i r, i ∈ pending →
      dispatchGenerate pending (WResp.result i r) =
        (pending.erase i, [(i, GenOutcome.ok r)])) ∧
    (∀ (pending : List String), pending.Nodup → ∀ i m, i ∈ pending →
      dispatchGenerate pending (WResp.error i m) =
        (pending.erase i, [(i, GenOutcome.err m)])) ∧
    (∀ (l l' : List String) (f : String → String), l.Nodup → List.Perm l' l →
      runResponses l (l'.map fun i => WResp.result i (f i)) =
        ([], l'.map fun i => (i, GenOutcome.ok (f i)))) := by
  refine ⟨dispatchGenerate_not_mem, ?_, ?_, ?_⟩
  · intro pending hnd i r hi
    exact dispatchGenerate_result pending hnd i r hi
  · intro pending hnd i m hi
    exact dispatchGenerate_error pending hnd i m hi
  · intro l l' f
    induction l' generalizing l with
    | nil =>
      intro _ hperm
      rw [hperm.symm.eq_nil]
      rfl
    | cons i t ih =>
      intro hnd hperm
      obtain ⟨hi, ht⟩ := List.cons_perm_iff_perm_erase.mp hperm
      have hd := dispatchGenerate_result l hnd i (f i) hi
      have hrest := ih (l.erase i) (List.Nodup.erase i hnd) ht
      simp [runResponses, hd, hrest]

/-- Witness for C2: two overlapping calls, responses arriving in reversed order,
each caller resolved with its own payload. -/
theorem c2_witness :
    runResponses ["a", "b"] (["b", "a"].map fun i => WResp.result i ("r" ++ i)) =
      ([], ["b", "a"].map fun i => (i, GenOutcome.ok ("r" ++ i))) :=
  c2_id_correlation_under_any_order.2.2.2 ["a", "b"] ["b", "a"] (fun i => "r" ++ i)
    (by decide) (by decide)

/-- Helper: the proxy loop returns exactly what the spec-level first-success scan
returns. -/
lemma tryProxyList_fst_eq_firstOk (env : FetchEnv) (url : String) :
    ∀ cands, (tryProxyList env url cands).1 = proxyFirstOk env url cands := by
  intro cands
  induction cands with
  | nil => rfl
  | cons base rest ih =>
    simp only [tryProxyList, proxyFirstOk]
    cases h : env.fetch (base ++ env.encode url) with
    | fault => simpa using ih
    | resp s b =>
      by_cases h4 : 400 ≤ s ∧ s < 600
      · have hok : respOk s = false := by
          simp only [respOk, Bool.and_eq_false_iff, decide_eq_false_iff_not]
          omega
        simp [h4, hok, ih]
      · by_cases hok : respOk s = true
        · simp [h4, hok]
        · simp [h4, hok, ih]

/-- Helper: the proxy loop's fetch trace is an in-order prefix of the candidate
list's proxy URLs — candidates are attempted strictly in list order, at most once
each. -/
lemma tryProxyList_trace_prefix (env : FetchEnv) (url : String) :
    ∀ cands, ∃ n, n ≤ cands.length ∧
      (tryProxyList env url cands).2 = (cands.take n).map fun b => b ++ env.encode url := by
  intro cands
  induction cands with
  | nil => exact ⟨0, Nat.le_refl 0, rfl⟩
  | cons base rest ih =>
    obtain ⟨n, hn, htr⟩ := ih
    simp only [tryProxyList]
    cases h : env.fetch (base ++ env.encode url) with
    | fault => exact ⟨n + 1, by simpa using hn, by simp [htr]⟩
    | resp s b =>
      by_cases h4 : 400 ≤ s ∧ s < 600
      · exact ⟨n + 1, by simpa using hn, by simp [h4, htr]⟩
      · by_cases hok : respOk s = true
        · exact ⟨1, by simp, by simp [h4, hok]⟩
        · exact ⟨n + 1, by simpa using hn, by simp [h4, hok, htr]⟩

/-- Helper: when no candidate succeeds, the proxy loop attempted every candidate. -/
lemma tryProxyList_none_trace (env : FetchEnv) (url : String) :
    ∀ cands, (tryProxyList env url cands).1 = none →
      (tryProxyList env url cands).2 = cands.map fun b => b ++ env.encode url := by
  intro cands
  induction cands with
  | nil => intro _; rfl
  | cons base rest ih =>
    intro hnone
    simp only [tryProxyList] at hnone ⊢
    cases h : env.fetch (base ++ env.encode url) with
    | fault =>
      rw [h] at hnone
      simp at hnone
      simp [ih hnone]
    | resp s b =>
      rw [h] at hnone
      by_cases h4 : 400 ≤ s ∧ s < 600
      · simp [h4] at hnone
        simp [h4, ih hnone]
      · by_cases hok : respOk s = true
        · simp [h4, hok] at hnone
        · simp [h4, hok] at hnone
          simp [h4, hok, ih hnone]

/-- Helper: whatever the first-success scan accepts is a success-status response. -/
lemma proxyFirstOk_is_success (env : FetchEnv) (url : String) :
    ∀ cands r, proxyFirstOk env url cands = some r →
      ∃ s b, r = FResult.resp s b ∧ respOk s = true := by
  intro cands
  induction cands with
  | nil => intro r h; cases h
  | cons base rest ih =>
    intro r h
    simp only [proxyFirstOk] at h
    cases hf : env.fetch (base ++ env.encode url) with
    | fault =>
      rw [hf] at h
      exact ih r h
    | resp s b =>
      rw [hf] at h
      by_cases hok : respOk s = true
      · simp [hok] at h
        exact ⟨s, b, h.symm, hok⟩
      · simp [hok] at h
        exact ih r h

/-- C3: when indirection is needed, the proxy candidates are attempted strictly in
list order and at most once each; the loop's outcome is exactly the first
success-status response (error statuses and transport faults are skipped); if it is
a success it is what `customFetch` returns; and when every candidate is exhausted,
`customFetch` performs one final direct retrieval and returns its outcome. -/
theorem c3_proxy_fallback_in_order :
    ∀ (env : FetchEnv) (url : String), needsProxy url = true →
      (∀ cands, (tryProxyList env url cands).1 = proxyFirstOk env url cands) ∧
      (∀ cands, ∃ n, n ≤ cands.length ∧
        (tryProxyList env url cands).2 = (cands.take n).map fun b => b ++ env.encode url) ∧
      (proxyFirstOk env url CORS_PROXY_SERVICES = none →
        customFetch env url =
          (env.fetch url, (CORS_PROXY_SERVICES.map fun b => b ++ env.encode url) ++ [url])) ∧
      (∀ r, proxyFirstOk env url CORS_PROXY_SERVICES = some r →
        (customFetch env url).1 = r) ∧
      (∀ r, proxyFirstOk env url CORS_PROXY_SERVICES = some r →
        ∃ s b, r = FResult.resp s b ∧ respOk s = true) := by
  intro env url hurl
  refine ⟨tryProxyList_fst_eq_firstOk env url, tryProxyList_trace_prefix env url, ?_, ?_, ?_⟩
  · intro hnone
    have h1 : (tryProxyList env url CORS_PROXY_SERVICES).1 = none :=
      (tryProxyList_fst_eq_firstOk env url CORS_PROXY_SERVICES).trans hnone
    have h2 := tryProxyList_none_trace env url CORS_PROXY_SERVICES h1
    have hpair : tryProxyList env url CORS_PROXY_SERVICES =
        (none, CORS_PROXY_SERVICES.map fun b => b ++ env.encode url) :=
      Prod.ext_iff.mpr ⟨h1, h2⟩
    simp [customFetch, hurl, hpair]
  · intro r hr
    have h1 : (tryProxyList env url CORS_PROXY_SERVICES).1 = some r :=
      (tryProxyList_fst_eq_firstOk env url CORS_PROXY_SERVICES).trans hr
    rcases htp : tryProxyList env url CORS_PROXY_SERVICES with ⟨res, t⟩
    rw [htp] at h1
    simp at h1
    subst h1
    simp [customFetch, hurl, htp]
  · intro r
    exact proxyFirstOk_is_success env url CORS_PROXY_SERVICES r

/-- Witness for C3 at a concrete environment where every retrieval faults: the
proxy chain is exhausted and the final direct retrieval's outcome is returned. -/
theorem c3_witness :
    needsProxy "https://huggingface.co/model.bin" = true ∧
      customFetch ⟨fun _ => FResult.fault, fun s => s⟩ "https://huggingface.co/model.bin" =
        (FResult.fault,
          ((CORS_PROXY_SERVICES.map fun b => b ++ "https://huggingface.co/model.bin") ++
            ["https://huggingface.co/model.bin"])) := by
  refine ⟨by decide, ?_⟩
  exact (c3_proxy_fallback_in_order ⟨fun _ => FResult.fault, fun s => s⟩
    "https://huggingface.co/model.bin" (by decide)).2.2.1 rfl

/-- C4 counterexample: a response whose id matches the pending generate call `"a"`
but whose kind is `loaded` (wrong kind for a generate call) removes the listener
(second component `true`) while settling nothing (first component `none`) — the
call is not resolved as an `Error` with a synthesized diagnostic, contradicting the
claim at this concrete input. -/
theorem c4_claim_counterexample :
    handleGenerateEvent "a" (WResp.loaded "a") = (none, true) := by decide

/-- C4 as amended: a matching response of the wrong kind for the call deregisters
the pending call's listener without resolving or rejecting it — the generate
handler ignores a matching `loaded` response and the load handler ignores a
matching `result` response, so the call stays unresolved forever rather than being
resolved as a synthesized `Error` (and no raw fault propagates either). -/
theorem c4_wrong_kind_left_unresolved :
    ∀ (id s : String),
      handleGenerateEvent id (WResp.loaded id) = (none, true) ∧
      handleLoadEvent id (WResp.result id s) = (none, true) := by
  intro id s
  exact ⟨by simp [handleGenerateEvent, wrespId], by simp [handleLoadEvent, wrespId]⟩

/-- C5: for every request the worker receives, `onmessage` posts exactly one
response; that response echoes the request's id, and is `loaded` for a successful
load, `result` for a successful generate, and `error` carrying the failure's
message when handling raises. -/
theorem c5_exactly_one_response_per_request :
    ∀ (env : WorkerEnv) (msg : WMessage),
      ∃ r, onmessage env msg = [r] ∧ wrespId r = wmsgId msg ∧
        (∀ id, msg = WMessage.load id →
          (env.pipelineLoad = Except.ok () → r = WResp.loaded id) ∧
          (∀ e, env.pipelineLoad = Except.error e → r = WResp.error id e)) ∧
        (∀ id m lang opts, msg = WMessage.generate id m lang opts →
          (∀ s, handleGenerate env m lang opts = Except.ok s → r = WResp.result id s) ∧
          (∀ e, handleGenerate env m lang opts = Except.error e → r = WResp.error id e)) := by
  intro env msg
  cases msg with
  | load id =>
    cases hp : env.pipelineLoad with
    | ok u =>
      cases u
      refine ⟨WResp.loaded id, by simp [onmessage, hp], rfl, ?_, ?_⟩
      · intro id' hid
        injection hid with h1
        subst h1
        refine ⟨fun _ => rfl, fun e he => ?_⟩
        exact Except.noConfusion he
      · intro id' m lang opts hid
        simp at hid
    | error e0 =>
      refine ⟨WResp.error id e0, by simp [onmessage, hp], rfl, ?_, ?_⟩
      · intro id' hid
        injection hid with h1
        subst h1
        refine ⟨fun he => Except.noConfusion he, fun e he => ?_⟩
        injection he with h3
        rw [h3]
      · intro id' m lang opts hid
        simp at hid
  | generate id m lang opts =>
    cases hg : handleGenerate env m lang opts with
    | ok s =>
      refine ⟨WResp.result id s, by simp [onmessage, hg], rfl, ?_, ?_⟩
      · intro id' hid
        simp at hid
      · intro id' m' lang' opts' hid
        injection hid with h1 h2 h3 h4
        subst h1; subst h2; subst h3; subst h4
        refine ⟨fun s' hs' => ?_, fun e he => ?_⟩
        · have h5 := hg.symm.trans hs'
          injection h5 with h6
          rw [h6]
        · exact Except.noConfusion (hg.symm.trans he)
    | error e0 =>
      refine ⟨WResp.error id e0, by simp [onmessage, hg], rfl, ?_, ?_⟩
      · intro id' hid
        simp at hid
      · intro id' m' lang' opts' hid
        injection hid with h1 h2 h3 h4
        subst h1; subst h2; subst h3; subst h4
        refine ⟨fun s' hs' => Except.noConfusion (hg.symm.trans hs'), fun e he => ?_⟩
        have h5 := hg.symm.trans he
        injection h5 with h6
        rw [h6]

/-- Witness for C5 at a concrete environment and a concrete load request. -/
theorem c5_witness :
    onmessage ⟨Except.ok (), none, fun _ _ => Except.error "x", fun _ => ""⟩ (WMessage.load "a") =
      [WResp.loaded "a"] := by
  obtain ⟨r, h1, _, h3, _⟩ :=
    c5_exactly_one_response_per_request
      ⟨Except.ok (), none, fun _ _ => Except.error "x", fun _ => ""⟩ (WMessage.load "a")
  rw [h1, (h3 "a" rfl).1 rfl]

/-- C6: indirection is applied exactly when the URL mentions the restricted host
`huggingface.co` and none of the known mirror/proxy origins; and for a URL that
does not need proxying, `customFetch` performs the direct retrieval verbatim and
the only URL ever fetched is the original one — the proxy candidate list is never
consulted. -/
theorem c6_proxy_exactly_for_restricted_host :
    ∀ (env : FetchEnv) (url : String),
      (needsProxy url = true ↔
        (strContains url "huggingface.co" = true ∧
          strContains url "cdn.jsdelivr.net" = false ∧
          strContains url "api.allorigins.win" = false ∧
          strContains url "corsproxy.io" = false ∧
          strContains url "api.codetabs.com" = false)) ∧
      (needsProxy url = false → customFetch env url = (env.fetch url, [url])) := by
  intro env url
  constructor
  · simp only [needsProxy, Bool.and_eq_true, Bool.not_eq_true']
    tauto
  · intro h
    simp [customFetch, h]

/-- Witness for C6 at a concrete non-restricted URL: the direct response comes back
and the trace shows the single direct fetch. -/
theorem c6_witness :
    customFetch ⟨fun _ => FResult.resp 200 "ok", fun s => s⟩ "https://example.com/x" =
      (FResult.resp 200 "ok", ["https://example.com/x"]) :=
  (c6_proxy_exactly_for_restricted_host ⟨fun _ => FResult.resp 200 "ok", fun s => s⟩
    "https://example.com/x").2 (by decide)

/-- Helper: once the pipeline cache is populated, every further `getPipeline` call
returns the cached value and never invokes the initializer. -/
lemma runPipelineCalls_cached {α : Type} (p : α) (mks : List α) :
    runPipelineCalls (some p) mks = (some p, mks.map fun _ => (p, false)) := by
  induction mks with
  | nil => rfl
  | cons mk rest ih => simp [runPipelineCalls, getPipelineStep, ih]

/-- C7: the generation pipeline is created at most once, lazily — over any sequence
of `getPipeline` calls starting from the empty cache, only the first call invokes
the initializer and every later call returns the same cached outcome; and a second
`loadChatModel` call finds the cached worker and creates no second one. -/
theorem c7_lazy_singletons :
    ∀ (α : Type) (mk : α) (mks : List α),
      runPipelineCalls none (mk :: mks) =
        (some mk, (mk, true) :: mks.map fun _ => (mk, false)) ∧
      ∀ (β : Type) (w1 w2 : β),
        loadChatModelStep w2 (loadChatModelStep w1 (none : Option β)).1 = (some w1, false) := by
  intro α mk mks
  constructor
  · simp [runPipelineCalls, getPipelineStep, runPipelineCalls_cached]
  · intro β w1 w2
    rfl

/-- C8: a generate call attempted while no worker exists fails with the distinct
`Chat worker not initialized` error and posts no message. -/
theorem c8_not_initialized_error :
    ∀ (id message language : String),
      generateChatResponseStart none id message language =
        (Except.error "Chat worker not initialized", []) := by
  intro id message language
  rfl

/-- C9: every successful generate result the worker posts is non-empty — and when
stripping the prompt and tokens from the generated text yields the empty string,
the posted response is the literal fallback `I understand.`; otherwise it is the
stripped text itself. -/
theorem c9_result_nonempty_with_fallback :
    ∀ (env : WorkerEnv) (m lang : String) (opts : ChatOptions) (s : String),
      handleGenerate env m lang opts = Except.ok s →
        s ≠ "" ∧
        ∀ fp r, formattedPromptOf env m lang = Except.ok fp →
          env.generate fp opts = Except.ok r →
            (extractAssistantResponse (extractGeneratedText r) fp = "" →
              s = "I understand.") ∧
            (extractAssistantResponse (extractGeneratedText r) fp ≠ "" →
              s = extractAssistantResponse (extractGeneratedText r) fp) := by
  intro env m lang opts s h
  cases hp : env.pipelineLoad with
  | error e => simp [handleGenerate, hp] at h
  | ok u =>
    cases hf : formattedPromptOf env m lang with
    | error e => simp [handleGenerate, hp, hf] at h
    | ok fp0 =>
      cases hg : env.generate fp0 opts with
      | error e => simp [handleGenerate, hp, hf, hg] at h
      | ok result0 =>
        by_cases hgt : extractGeneratedText result0 = ""
        · simp [handleGenerate, hp, hf, hg, hgt] at h
        · simp [handleGenerate, hp, hf, hg, hgt] at h
          constructor
          · by_cases hre : extractAssistantResponse (extractGeneratedText result0) fp0 = ""
            · rw [← h, if_pos hre]
              decide
            · rw [← h, if_neg hre]
              exact hre
          · intro fp r hfp hr
            have e1 : fp0 = fp := by injection hfp
            subst e1
            have e2 : result0 = r := by
              have h2 := hg.symm.trans hr
              injection h2
            subst e2
            refine ⟨fun hre => ?_, fun hre => ?_⟩
            · rw [← h, if_pos hre]
            · rw [← h, if_neg hre]

/-- Witness for C9: a generator that echoes the formatted prompt verbatim leaves an
empty response after stripping, so the posted result is the fallback text — which
is non-empty as the theorem demands. -/
theorem c9_witness :
    handleGenerate ⟨Except.ok (), none, fun fp _ => Except.ok (PipeResult.arr [PipeItem.withText fp]), fun _ => ""⟩
        "hi" "en" ⟨150, 7, true⟩ = Except.ok "I understand." ∧
      "I understand." ≠ "" := by
  have h : handleGenerate
      ⟨Except.ok (), none, fun fp _ => Except.ok (PipeResult.arr [PipeItem.withText fp]), fun _ => ""⟩
      "hi" "en" ⟨150, 7, true⟩ = Except.ok "I understand." := by rfl
  exact ⟨h, (c9_result_nonempty_with_fallback _ "hi" "en" _ _ h).1⟩

/-- C10 counterexample: `toString` is not one of the eight supported codes, yet
`languagePrompts["toString"]` yields the truthy inherited `Object.prototype.toString`
member, which short-circuits the `||` fallback — the worker does not use the
English system prompt at this concrete input, contradicting the claim. -/
theorem c10_claim_counterexample :
    ("toString" ∉ ["en", "de", "fr", "it", "pt", "hi", "es", "th"]) ∧
      getLanguagePrompt "toString" = PromptVal.inherited "toString" ∧
      getLanguagePrompt "toString" ≠
        PromptVal.str "You are a helpful assistant. Respond in English." := by
  refine ⟨by decide, by decide, by decide⟩

/-- C10 as amended: a language code that is neither one of the eight supported
codes nor the name of a member inherited from `Object.prototype` falls back
silently to the English system prompt; an inherited-member name instead yields the
truthy inherited member itself, bypassing the English fallback. -/
theorem c10_unknown_language_uses_english :
    ∀ (lang : String),
      lang ∉ ["en", "de", "fr", "it", "pt", "hi", "es", "th"] →
        (lang ∉ objectPrototypeMemberNames →
          getLanguagePrompt lang =
            PromptVal.str "You are a helpful assistant. Respond in English.") ∧
        (lang ∈ objectPrototypeMemberNames →
          getLanguagePrompt lang = PromptVal.inherited lang) := by
  intro lang h
  simp only [List.mem_cons, List.not_mem_nil, or_false] at h
  push_neg at h
  obtain ⟨h1, h2, h3, h4, h5, h6, h7, h8⟩ := h
  have b1 : ("en" == lang) = false := beq_eq_false_iff_ne.mpr (Ne.symm h1)
  have b2 : ("de" == lang) = false := beq_eq_false_iff_ne.mpr (Ne.symm h2)
  have b3 : ("fr" == lang) = false := beq_eq_false_iff_ne.mpr (Ne.symm h3)
  have b4 : ("it" == lang) = false := beq_eq_false_iff_ne.mpr (Ne.symm h4)
  have b5 : ("pt" == lang) = false := beq_eq_false_iff_ne.mpr (Ne.symm h5)
  have b6 : ("hi" == lang) = false := beq_eq_false_iff_ne.mpr (Ne.symm h6)
  have b7 : ("es" == lang) = false := beq_eq_false_iff_ne.mpr (Ne.symm h7)
  have b8 : ("th" == lang) = false := beq_eq_false_iff_ne.mpr (Ne.symm h8)
  have hfind : languagePrompts.find? (fun p => p.1 == lang) = none := by
    simp [languagePrompts, List.find?, b1, b2, b3, b4, b5, b6, b7, b8]
  constructor
  · intro hn
    simp [getLanguagePrompt, hfind, hn]
  · intro hm
    simp [getLanguagePrompt, hfind, hm]

/-- Witness for the amended C10 at the concrete unsupported code `xx` (English
fallback) and at the inherited name `toString` (no fallback). -/
theorem c10_witness :
    getLanguagePrompt "xx" =
        PromptVal.str "You are a helpful assistant. Respond in English." ∧
      getLanguagePrompt "toString" = PromptVal.inherited "toString" :=
  ⟨(c10_unknown_language_uses_english "xx" (by decide)).1 (by decide),
   (c10_unknown_language_uses_english "toString" (by decide)).2 (by decide)⟩

end AndersWasm
